import Mathlib

/-!
Shallow embedding of the WooCommerce → Supabase synchronization scripts
(`src/sync.js` and the three unnamed variant files) together with proofs
about the properties of the extraction, transformation, aggregation and
loading code.

JavaScript numbers are modelled by `JsNum` (rationals plus the special
values `NaN`, `Infinity`, `-Infinity`); machine floats never overflow in
the ranges exercised here, so rational arithmetic is a faithful model of
the float arithmetic the scripts perform.  JavaScript strings are Lean
strings; `undefined`-able record fields are `Option`s.
-/

/-! ## JavaScript number model -/

/-- Rational addition computed through `mkRat`, so that the kernel can
evaluate it on literals (the `Rat` field operations are opaque to
kernel reduction); `ratAdd_eq` below identifies it with `+`. -/
def ratAdd (p q : ℚ) : ℚ := mkRat (p.num * q.den + q.num * p.den) (p.den * q.den)

/-- Rational subtraction computed through `mkRat`; equals `-` by
`ratSub_eq`. -/
def ratSub (p q : ℚ) : ℚ := mkRat (p.num * q.den - q.num * p.den) (p.den * q.den)

/-- Rational division (for a nonzero divisor) computed through `mkRat`;
equals `/` by `ratDivNZ_eq`. -/
def ratDivNZ (p q : ℚ) : ℚ := mkRat (p.num * q.den * Int.sign q.num) (p.den * q.num.natAbs)

/-- A JavaScript number: a finite value (modelled as a rational), `NaN`,
`Infinity` or `-Infinity`. -/
inductive JsNum where
  | num (q : ℚ)
  | nan
  | inf
  | negInf
deriving DecidableEq

/-- JavaScript `+` on numbers. -/
def jsAdd : JsNum → JsNum → JsNum
  | JsNum.num p, JsNum.num q => JsNum.num (ratAdd p q)
  | JsNum.nan, _ => JsNum.nan
  | _, JsNum.nan => JsNum.nan
  | JsNum.inf, JsNum.negInf => JsNum.nan
  | JsNum.negInf, JsNum.inf => JsNum.nan
  | JsNum.inf, _ => JsNum.inf
  | _, JsNum.inf => JsNum.inf
  | JsNum.negInf, _ => JsNum.negInf
  | _, JsNum.negInf => JsNum.negInf

/-- JavaScript `-` on numbers. -/
def jsSub : JsNum → JsNum → JsNum
  | JsNum.num p, JsNum.num q => JsNum.num (ratSub p q)
  | JsNum.nan, _ => JsNum.nan
  | _, JsNum.nan => JsNum.nan
  | JsNum.inf, JsNum.inf => JsNum.nan
  | JsNum.negInf, JsNum.negInf => JsNum.nan
  | JsNum.inf, _ => JsNum.inf
  | _, JsNum.inf => JsNum.negInf
  | JsNum.negInf, _ => JsNum.negInf
  | _, JsNum.negInf => JsNum.inf

/-- JavaScript `/` on numbers (`0 / 0` is `NaN`, nonzero `/ 0` is signed
infinity). -/
def jsDiv : JsNum → JsNum → JsNum
  | JsNum.num p, JsNum.num q =>
      if q = 0 then
        if p = 0 then JsNum.nan else if p > 0 then JsNum.inf else JsNum.negInf
      else JsNum.num (ratDivNZ p q)
  | JsNum.nan, _ => JsNum.nan
  | _, JsNum.nan => JsNum.nan
  | JsNum.inf, JsNum.inf => JsNum.nan
  | JsNum.inf, JsNum.negInf => JsNum.nan
  | JsNum.negInf, JsNum.inf => JsNum.nan
  | JsNum.negInf, JsNum.negInf => JsNum.nan
  | JsNum.inf, JsNum.num q => if q < 0 then JsNum.negInf else JsNum.inf
  | JsNum.negInf, JsNum.num q => if q < 0 then JsNum.inf else JsNum.negInf
  | JsNum.num _, JsNum.inf => JsNum.num 0
  | JsNum.num _, JsNum.negInf => JsNum.num 0

/-- `x < 0` on JavaScript numbers (`NaN < 0` is `false`). -/
def jsLtZero : JsNum → Bool
  | JsNum.num q => decide (q < 0)
  | JsNum.nan => false
  | JsNum.inf => false
  | JsNum.negInf => true

/-- JavaScript truthiness of a number: `0` and `NaN` are falsy. -/
def jsNumTruthy : JsNum → Bool
  | JsNum.num q => decide (q ≠ 0)
  | JsNum.nan => false
  | JsNum.inf => true
  | JsNum.negInf => true

/-- JavaScript `v || d` where `v` is a number. -/
def jsNumOr (v d : JsNum) : JsNum := if jsNumTruthy v then v else d

/-- `≥` restricted to finite JavaScript numbers (used to state sortedness
of comparator-sorted lists whose entries are all finite). -/
def jsGeNum : JsNum → JsNum → Bool
  | JsNum.num p, JsNum.num q => decide (p ≥ q)
  | _, _ => false

instance : IsAntisymm JsNum (fun a b => jsGeNum a b = true) where
  antisymm a b h1 h2 := by
    cases a with
    | num p =>
      cases b with
      | num q =>
        simp only [jsGeNum, decide_eq_true_eq] at h1 h2
        exact congrArg JsNum.num (le_antisymm h2 h1)
      | nan => simp [jsGeNum] at h1
      | inf => simp [jsGeNum] at h1
      | negInf => simp [jsGeNum] at h1
    | nan => simp [jsGeNum] at h1
    | inf => simp [jsGeNum] at h1
    | negInf => simp [jsGeNum] at h1

/-! ## `parseFloat` model

Models the JavaScript `parseFloat` builtin on the string shapes the
scripts feed it: optional leading whitespace, optional sign, decimal
digits with an optional fractional part.  A string with no leading digits
at all (such as `"abc"`) parses to `NaN`. -/

/-- Numeric value of a list of decimal digit characters. -/
def digitsToNat (ds : List Char) : ℕ :=
  ds.foldl (fun a c => a * 10 + (c.toNat - 48)) 0

/-- Splits a character list into its leading run of decimal digits and
the remainder. -/
def takeDigits (l : List Char) : List Char × List Char :=
  (l.takeWhile Char.isDigit, l.dropWhile Char.isDigit)

/-- `parseFloat` on a string (decimal forms only, which covers every
call site in the scripts). -/
def jsParseFloat (s : String) : JsNum :=
  let l := s.toList.dropWhile Char.isWhitespace
  let signAndRest : Bool × List Char :=
    match l with
    | '-' :: t => (true, t)
    | '+' :: t => (false, t)
    | _ => (false, l)
  let ip := takeDigits signAndRest.2
  let fp : List Char × List Char :=
    match ip.2 with
    | '.' :: t => takeDigits t
    | _ => ([], [])
  if ip.1 = [] ∧ fp.1 = [] then JsNum.nan
  else
    let mag : ℚ :=
      mkRat (digitsToNat ip.1 * 10 ^ fp.1.length + digitsToNat fp.1) (10 ^ fp.1.length)
    JsNum.num (if signAndRest.1 then -mag else mag)

/-- `parseFloat` applied to a possibly-`undefined` value
(`parseFloat(undefined)` is `NaN`). -/
def jsParseFloatOpt : Option String → JsNum
  | none => JsNum.nan
  | some s => jsParseFloat s

/-! ## JavaScript string helpers -/

/-- JavaScript `v || d` where `v` is a possibly-`undefined` string
(`undefined` and `""` are falsy). -/
def jsOrStr (v : Option String) (d : String) : String :=
  match v with
  | none => d
  | some s => if s = "" then d else s

/-- Both-ends whitespace trimming on a character list. -/
def trimChars (l : List Char) : List Char :=
  ((l.dropWhile Char.isWhitespace).reverse.dropWhile Char.isWhitespace).reverse

/-- JavaScript `String.prototype.trim`. -/
def jsTrim (s : String) : String := String.mk (trimChars s.toList)

/-! ## Source data model

A WooCommerce order as the scripts consume it.  Fields the scripts read
optionally-chained or `||`-defaulted are `Option`s. -/

structure Billing where
  first_name : Option String := none
  last_name : Option String := none
  email : Option String := none
deriving DecidableEq

structure LineItem where
  product_id : ℕ := 0
  name : String := ""
  category : Option String := none
  price : Option String := none
  total : Option String := none
  quantity : ℕ := 0
deriving DecidableEq

structure Order where
  id : ℕ := 0
  date_created_gmt : Option String := none
  billing : Billing := {}
  total : Option String := none
  payment_method_title : Option String := none
  status : String := ""
  line_items : List LineItem := []
deriving DecidableEq

/-- A row of the Supabase `sales` table. -/
structure SaleRecord where
  order_id : String
  created_at : String
  customer_name : String
  total : JsNum
  payment_method : String
  status : String
deriving DecidableEq

/-! ## Order formatting (`formatOrder` in `src/sync.js`) -/

/-- `formatOrder` from `src/sync.js`:
`created_at: o.date_created_gmt + "Z"` (string concatenation with
`undefined` stringifies it), `total: parseFloat(o.total || "0")`,
`customer_name` built from the trimmed name pair with the
`'Client inconnu'` sentinel. -/
def formatOrder (o : Order) : SaleRecord :=
  { order_id := toString o.id
    created_at :=
      (match o.date_created_gmt with
       | some s => s
       | none => "undefined") ++ "Z"
    customer_name :=
      jsOrStr (some (jsTrim (jsOrStr o.billing.first_name "" ++ " " ++
        jsOrStr o.billing.last_name ""))) "Client inconnu"
    total := jsParseFloat (jsOrStr o.total "0")
    payment_method := jsOrStr o.payment_method_title "N/A"
    status := o.status }

/-- `formatOrderForSupabase` from `src/unnamed/part_002`; `now` is the
value of `new Date().toISOString()` at the moment this record is
formatted. -/
def formatOrderForSupabase (now : String) (o : Order) : SaleRecord :=
  { order_id := toString o.id
    created_at :=
      match o.date_created_gmt with
      | some s => if s = "" then now else s ++ "Z"
      | none => now
    customer_name :=
      jsOrStr (some (jsTrim (jsOrStr o.billing.first_name "" ++ " " ++
        jsOrStr o.billing.last_name ""))) "Client inconnu"
    total := jsNumOr (jsParseFloat (jsOrStr o.total "0")) (JsNum.num 0)
    payment_method := jsOrStr o.payment_method_title "N/A"
    status := if o.status = "" then "unknown" else o.status }

/-- The status allow-list of `main` in `src/sync.js`. -/
def allowedStatuses : List String := ["completed", "processing", "refunded"]

/-- The `sales` rows `main` in `src/sync.js` upserts: the extracted
orders filtered by the status allow-list, then formatted. -/
def mainFormattedOrders (rawOrders : List Order) : List SaleRecord :=
  (rawOrders.filter (fun o => decide (o.status ∈ allowedStatuses))).map formatOrder

/-! ## Paginated extractor (`fetchWooCommerceData` in `src/sync.js`)

The page source is modelled as a function from (1-based) page index to
the JSON array that page returns; the network and JSON decoding are the
environment.  The unbounded `while (true)` loop is modelled with fuel:
`none` means the fuel ran out before the loop exited (the JavaScript
loop would still be running).  On normal exit the result carries the
accumulated records (after the `slice(0, recordLimit)` truncation, when
the limit fired) together with the number of pages requested. -/

/-- The `recordLimit && allData.length >= recordLimit` guard; a limit of
`0` is falsy in JavaScript, so it never fires. -/
def limitHit (recordLimit : Option ℕ) (len : ℕ) : Bool :=
  match recordLimit with
  | none => false
  | some n => decide (n ≠ 0) && decide (len ≥ n)

/-- The body of the pagination loop of `fetchWooCommerceData`. -/
def fetchLoop {α : Type} (pages : ℕ → List α) (recordLimit : Option ℕ) :
    ℕ → ℕ → List α → Option (List α × ℕ)
  | 0, _, _ => none
  | fuel + 1, page, allData =>
    let pageData := pages page
    if pageData.length = 0 then some (allData, page)
    else
      let allData2 := allData ++ pageData
      if limitHit recordLimit allData2.length then
        some (allData2.take (recordLimit.getD 0), page)
      else
        fetchLoop pages recordLimit fuel (page + 1) allData2

/-- `fetchWooCommerceData(endpoint, recordLimit)` from `src/sync.js`,
starting at page 1 with an empty accumulator. -/
def fetchWooCommerceData {α : Type} (pages : ℕ → List α) (recordLimit : Option ℕ)
    (fuel : ℕ) : Option (List α × ℕ) :=
  fetchLoop pages recordLimit fuel 1 []

/-- The recursive accumulating `fetchOrders(page, allOrders)` of
`src/unnamed/part_001`: it recurses exactly when the page contains 100
records, i.e. it stops on the first page shorter than 100. -/
def fetchOrdersLoop {α : Type} (pages : ℕ → List α) :
    ℕ → ℕ → List α → Option (List α × ℕ)
  | 0, _, _ => none
  | fuel + 1, page, allOrders =>
    let orders := pages page
    let allOrders2 := allOrders ++ orders
    if orders.length = 100 then fetchOrdersLoop pages fuel (page + 1) allOrders2
    else some (allOrders2, page)

/-- `fetchOrders()` from `src/unnamed/part_001` (page defaults to 1,
accumulator to `[]`). -/
def fetchOrders {α : Type} (pages : ℕ → List α) (fuel : ℕ) : Option (List α × ℕ) :=
  fetchOrdersLoop pages fuel 1 []

/-- A finite page stream: pages `1..l.length` hold the given arrays and
every later page is the empty array. -/
def pagesOf {α : Type} (l : List (List α)) : ℕ → List α :=
  fun i => ((l.get? (i - 1)).getD [])

/-- The order extraction of `main` in `src/sync.js`:
`fetchWooCommerceData('/orders', 500)`. -/
def syncOrdersFetch {α : Type} (pages : ℕ → List α) (fuel : ℕ) : Option (List α × ℕ) :=
  fetchWooCommerceData pages (some 500) fuel

/-- Number of records on pages `1..j` of a page stream: the cumulative
record count after the extractor has consumed the first `j` pages. -/
def pagesCount {α : Type} (pages : ℕ → List α) (j : ℕ) : ℕ :=
  ((List.range j).map (fun i => (pages (i + 1)).length)).sum

/-! ## Chunked loader (`upsertChunks` in `src/unnamed/part_002`)

The store is the environment: `ok j` tells whether the bulk write of
chunk number `j` (0-based) returns a success status.  The result carries
the records committed to the store (the chunks whose write succeeded),
the number of write attempts issued, and whether the whole load
succeeded; a failed chunk raises, committing nothing of itself and
leaving later chunks unattempted.  `none` models the infinite loop a
chunk size of 0 would produce. -/

def upsertLoop {α : Type} (chunkSize : ℕ) (ok : ℕ → Bool) :
    ℕ → ℕ → List α → Option (List α × ℕ × Bool)
  | 0, _, _ => none
  | fuel + 1, j, rem =>
    if rem.isEmpty then some ([], 0, true)
    else
      let chunk := rem.take chunkSize
      if ok j then
        match upsertLoop chunkSize ok fuel (j + 1) (rem.drop chunkSize) with
        | none => none
        | some (c, a, s) => some (chunk ++ c, a + 1, s)
      else some ([], 1, false)

/-- `upsertChunks(supabaseUrl, supabaseKey, table, records)` from
`src/unnamed/part_002`, abstracted over the chunk size constant
(`CHUNK_SIZE` in the source) and the store's per-chunk write status. -/
def upsertChunks {α : Type} (chunkSize : ℕ) (ok : ℕ → Bool) (records : List α) :
    Option (List α × ℕ × Bool) :=
  if records.isEmpty then some ([], 0, true)
  else upsertLoop chunkSize ok (records.length + 1) 0 records

/-! ## JavaScript `Array.prototype.sort`

`Array.prototype.sort(cmp)` is specified as a stable sort in which `a`
is placed before `b` exactly when `cmp(a, b) < 0`.  `jsSort sb` is a
stable insertion sort where `sb a b` means "`a` must come strictly
before `b`", i.e. `cmp(a, b) < 0`. -/

/-- Inserts `x` into `l` before the first element that need not precede
it; elements equal under the comparator keep their original relative
order because insertion scans from the left of the earlier elements. -/
def jsIns {α : Type} (sb : α → α → Bool) (x : α) : List α → List α
  | [] => [x]
  | y :: l => if sb y x then y :: jsIns sb x l else x :: y :: l

/-- Stable sort by the strictly-before relation `sb`. -/
def jsSort {α : Type} (sb : α → α → Bool) : List α → List α
  | [] => []
  | x :: l => jsIns sb x (jsSort sb l)

/-! ## Association-list helpers (plain JavaScript objects)

A plain object used as a dictionary is an association list in key
insertion order (for non-integer-like keys such as e-mail addresses) —
new keys are appended, existing keys are updated in place. -/

def alLookup {α : Type} [DecidableEq α] {β : Type} (k : α) :
    List (α × β) → Option β
  | [] => none
  | p :: l => if p.1 = k then some p.2 else alLookup k l

def alUpdate {α : Type} [DecidableEq α] {β : Type} (m : List (α × β)) (k : α) (v : β) :
    List (α × β) :=
  m.map (fun p => if p.1 = k then (k, v) else p)

/-! ## BI aggregation (`src/unnamed/part_000`) -/

/-- The grouping key of `getTopCustomers`:
`order.billing.email || 'inconnu'`. -/
def custKey (o : Order) : String := jsOrStr o.billing.email "inconnu"

/-- One `orders.forEach` step of `getTopCustomers`:
`customers[email] = (customers[email] || 0) + parseFloat(order.total)`. -/
def custStep (m : List (String × JsNum)) (o : Order) : List (String × JsNum) :=
  let k := custKey o
  let v := jsParseFloatOpt o.total
  match alLookup k m with
  | some cur => alUpdate m k (jsAdd (jsNumOr cur (JsNum.num 0)) v)
  | none => m ++ [(k, jsAdd (jsNumOr (JsNum.num 0) (JsNum.num 0)) v)]

/-- The `customers` object of `getTopCustomers` after the `forEach`,
as an association list in key insertion order. -/
def customersAList (orders : List Order) : List (String × JsNum) :=
  orders.foldl custStep []

/-- The comparator `(a, b) => b[1] - a[1]` of `getTopCustomers` as a
strictly-before relation: `a` precedes `b` when `b[1] - a[1] < 0`. -/
def custSb (a b : String × JsNum) : Bool := jsLtZero (jsSub b.2 a.2)

/-- An element of the `getTopCustomers` result
(`.map(([email, total]) => ({ email, total }))`). -/
structure TopCustomer where
  email : String
  total : JsNum
deriving DecidableEq

/-- `getTopCustomers(orders)` from `src/unnamed/part_000`: group order
totals by e-mail, sort entries descending by total, keep the first 5. -/
def getTopCustomers (orders : List Order) : List TopCustomer :=
  ((jsSort custSb (customersAList orders)).take 5).map (fun p => ⟨p.1, p.2⟩)

/-- `orders.reduce((sum, order) => sum + parseFloat(order.total), 0)`
from the `analytics` object of `src/unnamed/part_000`. -/
def totalRevenue (orders : List Order) : JsNum :=
  orders.foldl (fun s o => jsAdd s (jsParseFloatOpt o.total)) (JsNum.num 0)

/-- `averageOrderValue` from the `analytics` object of
`src/unnamed/part_000`: the revenue sum divided by `orders.length`,
with no emptiness guard. -/
def averageOrderValue (orders : List Order) : JsNum :=
  jsDiv (totalRevenue orders) (JsNum.num orders.length)

/-! ## Top-product aggregation (`syncData` in `src/unnamed/part_001`)

The `productSales` object is keyed by `item.product_id.toString()`.
Those keys are integer-like, so `Object.values` enumerates them in
ascending numeric key order (the ECMAScript own-property order), not in
insertion order; the subsequent `.sort` is the stable comparator sort. -/

/-- One value of the `productSales` object. -/
structure ProdAgg where
  product_id : String
  name : String
  category : Option String
  price : JsNum
  stock : Option ℕ
  total_sales : JsNum
deriving DecidableEq

/-- The freshly initialized `productSales[id]` record (before the
`+= parseFloat(item.total)` that always follows). -/
def prodInit (it : LineItem) : ProdAgg :=
  { product_id := toString it.product_id
    name := it.name
    category := match it.category with
                | none => none
                | some s => if s = "" then none else some s
    price := jsParseFloatOpt it.price
    stock := none
    total_sales := JsNum.num 0 }

/-- One line-item step of the `productSales` accumulation. -/
def prodStep (m : List (ℕ × ProdAgg)) (it : LineItem) : List (ℕ × ProdAgg) :=
  match alLookup it.product_id m with
  | some agg =>
      alUpdate m it.product_id
        { agg with total_sales := jsAdd agg.total_sales (jsParseFloatOpt it.total) }
  | none =>
      m ++ [(it.product_id,
        { prodInit it with
            total_sales := jsAdd (JsNum.num 0) (jsParseFloatOpt it.total) })]

/-- The `productSales` object after the nested
`orders.forEach(order => order.line_items.forEach(item => ...))`. -/
def productSales (orders : List Order) : List (ℕ × ProdAgg) :=
  orders.foldl (fun m o => o.line_items.foldl prodStep m) []

/-- All line items of all orders, in traversal order. -/
def allItems : List Order → List LineItem
  | [] => []
  | o :: t => o.line_items ++ allItems t

/-- `Object.values(productSales)`: values in ascending numeric key
order (integer-like keys). -/
def objectValuesNum (m : List (ℕ × ProdAgg)) : List ProdAgg :=
  (jsSort (fun a b => decide (a.1 < b.1)) m).map Prod.snd

/-- The comparator `(a, b) => b.total_sales - a.total_sales` as a
strictly-before relation. -/
def prodSb (a b : ProdAgg) : Bool := jsLtZero (jsSub b.total_sales a.total_sales)

/-- `topProducts` from `src/unnamed/part_001`: the `productSales` values
sorted descending by `total_sales` and cut to the first 50. -/
def topProducts (orders : List Order) : List ProdAgg :=
  (jsSort prodSb (objectValuesNum (productSales orders))).take 50

/-- Sum (as a rational) of the parsed `item.total` values of the line
items of a given product, counting a `NaN` parse as 0; used to state
what the accumulated `total_sales` of a product is when every involved
`item.total` parses to a finite number. -/
def itemsRevenue (k : ℕ) (items : List LineItem) : ℚ :=
  ((items.filter (fun it => decide (it.product_id = k))).map
    (fun it => match jsParseFloatOpt it.total with
               | JsNum.num q => q
               | _ => 0)).sum

/-- A concrete one-order set with two line items: product 1 sells 10
units for a revenue of 5, product 2 sells 1 unit for a revenue of 100;
used to exercise the top-product ranking. -/
def c4Orders : List Order :=
  [{ id := 1, status := "completed",
     line_items :=
       [{ product_id := 1, name := "A", price := some "1", total := some "5", quantity := 10 },
        { product_id := 2, name := "B", price := some "100", total := some "100", quantity := 1 }] }]

/-- A concrete six-customer order set: totals 50, 50, 30, 20, 10, 5
from six distinct e-mail addresses, used to instantiate the
top-customer ranking property. -/
def c9Orders : List Order :=
  [{ id := 1, billing := { email := some "a@x" }, total := some "50" },
   { id := 2, billing := { email := some "b@x" }, total := some "50" },
   { id := 3, billing := { email := some "c@x" }, total := some "30" },
   { id := 4, billing := { email := some "d@x" }, total := some "20" },
   { id := 5, billing := { email := some "e@x" }, total := some "10" },
   { id := 6, billing := { email := some "f@x" }, total := some "5" }]

/-- The customer grouping `c9Orders` induces. -/
def c9Groups : List (String × JsNum) :=
  [("a@x", JsNum.num 50), ("b@x", JsNum.num 50), ("c@x", JsNum.num 30),
   ("d@x", JsNum.num 20), ("e@x", JsNum.num 10), ("f@x", JsNum.num 5)]

/-- Modelled from the spec: the per-product unit count the spec's
top-products-by-sales-count derivation says is accumulated and sorted
on — "accumulates both a unit-count and a revenue sum, sorts descending
by unit-count".  The source of `src/unnamed/part_001` has no such
accumulator; this definition exists to state that divergence. -/
def specUnitCount (k : ℕ) (orders : List Order) : ℕ :=
  (((allItems orders).filter (fun it => decide (it.product_id = k))).map
    (fun it => it.quantity)).sum

/-! ## Bridge lemmas for the `mkRat`-based arithmetic -/

theorem ratAdd_eq (p q : ℚ) : ratAdd p q = p + q := by
  rw [ratAdd, Rat.mkRat_eq_div]
  have hp : (p.den : ℚ) ≠ 0 := Nat.cast_ne_zero.mpr p.den_nz
  have hq : (q.den : ℚ) ≠ 0 := Nat.cast_ne_zero.mpr q.den_nz
  conv_rhs => rw [← Rat.num_div_den p, ← Rat.num_div_den q]
  push_cast
  field_simp

theorem ratSub_eq (p q : ℚ) : ratSub p q = p - q := by
  rw [ratSub, Rat.mkRat_eq_div]
  have hp : (p.den : ℚ) ≠ 0 := Nat.cast_ne_zero.mpr p.den_nz
  have hq : (q.den : ℚ) ≠ 0 := Nat.cast_ne_zero.mpr q.den_nz
  conv_rhs => rw [← Rat.num_div_den p, ← Rat.num_div_den q]
  push_cast
  field_simp
  ring

theorem jsAdd_num (p q : ℚ) : jsAdd (JsNum.num p) (JsNum.num q) = JsNum.num (p + q) := by
  simp [jsAdd, ratAdd_eq]

theorem jsSub_num (p q : ℚ) : jsSub (JsNum.num p) (JsNum.num q) = JsNum.num (p - q) := by
  simp [jsSub, ratSub_eq]

/-! ## Generic facts about the stable comparator sort -/

theorem jsIns_eq {α : Type} (sb : α → α → Bool) (x : α) (l : List α) :
    jsIns sb x l =
      l.takeWhile (fun y => sb y x) ++ x :: l.dropWhile (fun y => sb y x) := by
  induction l with
  | nil => rfl
  | cons y t ih =>
    by_cases h : sb y x
    · simp [jsIns, h, ih, List.takeWhile_cons, List.dropWhile_cons]
    · simp [jsIns, h, List.takeWhile_cons, List.dropWhile_cons]

theorem jsIns_perm {α : Type} (sb : α → α → Bool) (x : α) (l : List α) :
    (jsIns sb x l).Perm (x :: l) := by
  rw [jsIns_eq]
  calc (l.takeWhile (fun y => sb y x) ++ x :: l.dropWhile (fun y => sb y x)).Perm
        (x :: (l.takeWhile (fun y => sb y x) ++ l.dropWhile (fun y => sb y x))) :=
        List.perm_middle
    _ = x :: l := by rw [List.takeWhile_append_dropWhile]

theorem jsSort_perm {α : Type} (sb : α → α → Bool) (l : List α) :
    (jsSort sb l).Perm l := by
  induction l with
  | nil => exact List.Perm.refl []
  | cons x t ih =>
    exact ((jsIns_perm sb x (jsSort sb t)).trans (List.Perm.cons x ih))

theorem mem_jsSort {α : Type} {sb : α → α → Bool} {l : List α} {a : α} :
    a ∈ jsSort sb l ↔ a ∈ l :=
  (jsSort_perm sb l).mem_iff

theorem jsIns_pairwise {α : Type} {sb : α → α → Bool} {good : α → Prop}
    (Hasym : ∀ a b, good a → good b → sb a b = true → sb b a = false)
    (Htrans : ∀ a b c, good a → good b → good c →
      sb b a = false → sb c b = false → sb c a = false)
    {x : α} (hx : good x) :
    ∀ {l : List α}, (∀ y ∈ l, good y) →
      l.Pairwise (fun a b => sb b a = false) →
      (jsIns sb x l).Pairwise (fun a b => sb b a = false) := by
  intro l
  induction l with
  | nil => intro _ _; simp [jsIns]
  | cons y t ih =>
    intro hg hp
    have hgy : good y := hg y (by simp)
    have hgt : ∀ z ∈ t, good z := fun z hz => hg z (by simp [hz])
    rcases List.pairwise_cons.mp hp with ⟨hyt, hpt⟩
    by_cases h : sb y x
    · have h1 : jsIns sb x (y :: t) = y :: jsIns sb x t := by simp [jsIns, h]
      rw [h1, List.pairwise_cons]
      constructor
      · intro z hz
        rcases List.mem_cons.mp ((jsIns_perm sb x t).mem_iff.mp hz) with hz1 | hz1
        · subst hz1
          exact Hasym y z hgy hx h
        · exact hyt z hz1
      · exact ih hgt hpt
    · have h1 : jsIns sb x (y :: t) = x :: y :: t := by simp [jsIns, h]
      rw [h1, List.pairwise_cons]
      refine ⟨?_, hp⟩
      intro z hz
      rcases List.mem_cons.mp hz with hz1 | hz1
      · subst hz1
        simpa using h
      · have h2 : sb z y = false := hyt z hz1
        exact Htrans x y z hx hgy (hgt z hz1) (by simpa using h) h2

theorem jsSort_pairwise {α : Type} {sb : α → α → Bool} {good : α → Prop}
    (Hasym : ∀ a b, good a → good b → sb a b = true → sb b a = false)
    (Htrans : ∀ a b c, good a → good b → good c →
      sb b a = false → sb c b = false → sb c a = false) :
    ∀ {l : List α}, (∀ y ∈ l, good y) →
      (jsSort sb l).Pairwise (fun a b => sb b a = false) := by
  intro l
  induction l with
  | nil => intro _; simp [jsSort]
  | cons x t ih =>
    intro hg
    have hx : good x := hg x (by simp)
    have hgt : ∀ z ∈ t, good z := fun z hz => hg z (by simp [hz])
    have hsorted := ih hgt
    have hmem : ∀ y ∈ jsSort sb t, good y := fun y hy => hgt y (mem_jsSort.mp hy)
    exact jsIns_pairwise Hasym Htrans hx hmem hsorted

theorem jsIns_filter {α : Type} {sb : α → α → Bool} {p : α → Bool}
    (Htie : ∀ a b, p a = true → p b = true → sb a b = false)
    (x : α) :
    ∀ (l : List α),
      (jsIns sb x l).filter p = if p x then x :: l.filter p else l.filter p := by
  intro l
  induction l with
  | nil => by_cases h : p x <;> simp [jsIns, List.filter, h]
  | cons y t ih =>
    by_cases h : sb y x
    · have h1 : jsIns sb x (y :: t) = y :: jsIns sb x t := by simp [jsIns, h]
      by_cases hpy : p y
      · by_cases hpx : p x
        · exact absurd (Htie y x hpy hpx) (by simp [h])
        · simp [h1, List.filter_cons, hpy, hpx, ih]
      · simp [h1, List.filter_cons, hpy, ih]
    · have h1 : jsIns sb x (y :: t) = x :: y :: t := by simp [jsIns, h]
      by_cases hpx : p x <;> simp [h1, List.filter_cons, hpx]

theorem jsSort_filter {α : Type} {sb : α → α → Bool} {p : α → Bool}
    (Htie : ∀ a b, p a = true → p b = true → sb a b = false) :
    ∀ (l : List α), (jsSort sb l).filter p = l.filter p := by
  intro l
  induction l with
  | nil => rfl
  | cons x t ih =>
    by_cases hpx : p x <;>
      simp [jsSort, jsIns_filter Htie, List.filter_cons, hpx, ih]

/-! ## Pagination loop lemmas -/

theorem fetchLoop_succ {α : Type} (pages : ℕ → List α) (lim : Option ℕ)
    (fuel page : ℕ) (acc : List α) :
    fetchLoop pages lim (fuel + 1) page acc =
      (if (pages page).length = 0 then some (acc, page)
       else if limitHit lim (acc ++ pages page).length then
         some ((acc ++ pages page).take (lim.getD 0), page)
       else fetchLoop pages lim fuel (page + 1) (acc ++ pages page)) := rfl

theorem fetchOrdersLoop_succ {α : Type} (pages : ℕ → List α)
    (fuel page : ℕ) (acc : List α) :
    fetchOrdersLoop pages (fuel + 1) page acc =
      (if (pages page).length = 100 then
        fetchOrdersLoop pages fuel (page + 1) (acc ++ pages page)
       else some (acc ++ pages page, page)) := rfl

/-- With no record limit, the loop exits exactly at the first empty page
at or after its starting page: the page it stops on is empty and every
earlier page it visited was nonempty. -/
theorem fetchLoop_stops_at_empty {α : Type} (pages : ℕ → List α) :
    ∀ (fuel page : ℕ) (acc res : List α) (k : ℕ),
      fetchLoop pages none fuel page acc = some (res, k) →
      pages k = [] ∧ ∀ i, page ≤ i → i < k → pages i ≠ [] := by
  intro fuel
  induction fuel with
  | zero => intro page acc res k h; exact absurd h (by simp [fetchLoop])
  | succ fuel ih =>
    intro page acc res k h
    rw [fetchLoop_succ] at h
    by_cases hlen : (pages page).length = 0
    · rw [if_pos hlen] at h
      have hk : page = k := by
        have := (Option.some.injEq _ _).mp h
        exact (Prod.mk.injEq _ _ _ _).mp this |>.2
      subst hk
      exact ⟨List.length_eq_zero.mp hlen, fun i h1 h2 => absurd (lt_of_le_of_lt h1 h2) (lt_irrefl page)⟩
    · rw [if_neg hlen] at h
      have hhit : limitHit none (acc ++ pages page).length = false := rfl
      rw [hhit] at h
      simp only [Bool.false_eq_true, if_false] at h
      rcases ih (page + 1) (acc ++ pages page) res k h with ⟨hk, hrange⟩
      refine ⟨hk, fun i h1 h2 => ?_⟩
      rcases eq_or_lt_of_le h1 with h3 | h3
      · subst h3
        exact fun hcon => hlen (by simp [hcon])
      · exact hrange i h3 h2

/-- The loop's exit page is at or after its starting page. -/
theorem fetchLoop_page_le {α : Type} (pages : ℕ → List α) (lim : Option ℕ) :
    ∀ (fuel page : ℕ) (acc res : List α) (k : ℕ),
      fetchLoop pages lim fuel page acc = some (res, k) → page ≤ k := by
  intro fuel
  induction fuel with
  | zero => intro page acc res k h; exact absurd h (by simp [fetchLoop])
  | succ fuel ih =>
    intro page acc res k h
    rw [fetchLoop_succ] at h
    by_cases hlen : (pages page).length = 0
    · rw [if_pos hlen] at h
      have := (Prod.mk.injEq _ _ _ _).mp ((Option.some.injEq _ _).mp h)
      exact le_of_eq this.2
    · rw [if_neg hlen] at h
      by_cases hhit : limitHit lim (acc ++ pages page).length
      · rw [if_pos hhit] at h
        have := (Prod.mk.injEq _ _ _ _).mp ((Option.some.injEq _ _).mp h)
        exact le_of_eq this.2
      · rw [if_neg hhit] at h
        exact le_trans (Nat.le_succ page) (ih (page + 1) (acc ++ pages page) res k h)

/-- With no limit, the loop only ever appends to its accumulator. -/
theorem fetchLoop_accum {α : Type} (pages : ℕ → List α) :
    ∀ (fuel page : ℕ) (acc res : List α) (k : ℕ),
      fetchLoop pages none fuel page acc = some (res, k) → ∃ t, res = acc ++ t := by
  intro fuel
  induction fuel with
  | zero => intro page acc res k h; exact absurd h (by simp [fetchLoop])
  | succ fuel ih =>
    intro page acc res k h
    rw [fetchLoop_succ] at h
    by_cases hlen : (pages page).length = 0
    · rw [if_pos hlen] at h
      have := (Prod.mk.injEq _ _ _ _).mp ((Option.some.injEq _ _).mp h)
      exact ⟨[], by simp [← this.1]⟩
    · rw [if_neg hlen] at h
      have hhit : limitHit none (acc ++ pages page).length = false := rfl
      rw [hhit] at h
      simp only [Bool.false_eq_true, if_false] at h
      rcases ih (page + 1) (acc ++ pages page) res k h with ⟨t, ht⟩
      exact ⟨pages page ++ t, by simp [ht]⟩

/-- A limited run is the `take` of the unlimited run on the same fuel,
and requests no more pages, provided the limit is positive and not yet
reached by the accumulator. -/
theorem fetchLoop_limited_take {α : Type} (pages : ℕ → List α) (n : ℕ) (hn : 1 ≤ n) :
    ∀ (fuel page : ℕ) (acc res resU : List α) (k kU : ℕ),
      acc.length < n →
      fetchLoop pages (some n) fuel page acc = some (res, k) →
      fetchLoop pages none fuel page acc = some (resU, kU) →
      res = resU.take n ∧ res.length = min n resU.length ∧ k ≤ kU := by
  intro fuel
  induction fuel with
  | zero => intro page acc res resU k kU _ h _; exact absurd h (by simp [fetchLoop])
  | succ fuel ih =>
    intro page acc res resU k kU hacc h hU
    rw [fetchLoop_succ] at h hU
    by_cases hlen : (pages page).length = 0
    · rw [if_pos hlen] at h hU
      have h1 := (Prod.mk.injEq _ _ _ _).mp ((Option.some.injEq _ _).mp h)
      have h2 := (Prod.mk.injEq _ _ _ _).mp ((Option.some.injEq _ _).mp hU)
      refine ⟨?_, ?_, ?_⟩
      · rw [← h1.1, ← h2.1, List.take_of_length_le (le_of_lt hacc)]
      · rw [← h1.1, ← h2.1, min_eq_right (le_of_lt hacc)]
      · rw [← h1.2, ← h2.2]
    · rw [if_neg hlen] at h hU
      have hhitU : limitHit none (acc ++ pages page).length = false := rfl
      rw [hhitU] at hU
      simp only [Bool.false_eq_true, if_false] at hU
      by_cases hhit : limitHit (some n) (acc ++ pages page).length
      · rw [if_pos hhit] at h
        have hge : n ≤ (acc ++ pages page).length := by
          have := hhit
          simp only [limitHit, Bool.and_eq_true, decide_eq_true_eq] at this
          exact this.2
        have h1 := (Prod.mk.injEq _ _ _ _).mp ((Option.some.injEq _ _).mp h)
        rcases fetchLoop_accum pages fuel (page + 1) (acc ++ pages page) resU kU hU with ⟨t, ht⟩
        have hresU : resU.take n = (acc ++ pages page).take n := by
          rw [ht, List.take_append_of_le_length hge]
        refine ⟨?_, ?_, ?_⟩
        · rw [← h1.1, hresU]; rfl
        · rw [← h1.1]
          have hlen2 : n ≤ resU.length := by
            rw [ht]
            calc n ≤ (acc ++ pages page).length := hge
              _ ≤ ((acc ++ pages page) ++ t).length := by simp
          have hgd : (some n).getD 0 = n := rfl
          rw [hgd, List.length_take, min_eq_left hge, min_eq_left hlen2]
        · rw [← h1.2]
          exact le_trans (Nat.le_succ page) (fetchLoop_page_le pages none fuel (page + 1) _ resU kU hU)
      · rw [if_neg hhit] at h
        have hlt : (acc ++ pages page).length < n := by
          simp only [limitHit, Bool.and_eq_true, decide_eq_true_eq] at hhit
          rcases Nat.lt_or_ge (acc ++ pages page).length n with h3 | h3
          · exact h3
          · exact absurd ⟨Nat.one_le_iff_ne_zero.mp hn, h3⟩ hhit
        exact ih (page + 1) (acc ++ pages page) res resU k kU hlt h hU

/-- The result of a positive-limited run never exceeds the limit. -/
theorem fetchLoop_limited_len {α : Type} (pages : ℕ → List α) (n : ℕ) (hn : 1 ≤ n) :
    ∀ (fuel page : ℕ) (acc res : List α) (k : ℕ),
      acc.length < n →
      fetchLoop pages (some n) fuel page acc = some (res, k) →
      res.length ≤ n := by
  intro fuel
  induction fuel with
  | zero => intro page acc res k _ h; exact absurd h (by simp [fetchLoop])
  | succ fuel ih =>
    intro page acc res k hacc h
    rw [fetchLoop_succ] at h
    by_cases hlen : (pages page).length = 0
    · rw [if_pos hlen] at h
      have h1 := (Prod.mk.injEq _ _ _ _).mp ((Option.some.injEq _ _).mp h)
      rw [← h1.1]
      exact le_of_lt hacc
    · rw [if_neg hlen] at h
      by_cases hhit : limitHit (some n) (acc ++ pages page).length
      · rw [if_pos hhit] at h
        have h1 := (Prod.mk.injEq _ _ _ _).mp ((Option.some.injEq _ _).mp h)
        rw [← h1.1]
        calc (List.take ((some n).getD 0) (acc ++ pages page)).length
            ≤ (some n).getD 0 := List.length_take_le _ _
          _ = n := rfl
      · rw [if_neg hhit] at h
        have hlt : (acc ++ pages page).length < n := by
          simp only [limitHit, Bool.and_eq_true, decide_eq_true_eq] at hhit
          rcases Nat.lt_or_ge (acc ++ pages page).length n with h3 | h3
          · exact h3
          · exact absurd ⟨Nat.one_le_iff_ne_zero.mp hn, h3⟩ hhit
        exact ih (page + 1) (acc ++ pages page) res k hlt h

/-! ## Claim C1 — pagination termination and page counts -/

/-- C1 (amended).  For pages of sizes `[100, 100, 37, 0]` the canonical
extractor `fetchWooCommerceData` (no record limit) returns exactly the
237 records of the first three pages in source order and requests
exactly 4 pages, and in general its loop terminates only on an empty
page, never on a merely short one; the recursive variant `fetchOrders`
of `src/unnamed/part_001`, however, stops on the first page shorter
than 100 records, so on the same stream it returns the same 237 records
after only 3 page requests. -/
theorem claim_C1_pagination (p1 p2 p3 : List ℕ)
    (h1 : p1.length = 100) (h2 : p2.length = 100) (h3 : p3.length = 37) :
    fetchWooCommerceData (pagesOf [p1, p2, p3]) none 4 = some (p1 ++ p2 ++ p3, 4) ∧
    (p1 ++ p2 ++ p3).length = 237 ∧
    (∀ (pages : ℕ → List ℕ) (fuel : ℕ) (res : List ℕ) (k : ℕ),
      fetchWooCommerceData pages none fuel = some (res, k) →
      pages k = [] ∧ ∀ i, 1 ≤ i → i < k → pages i ≠ []) ∧
    fetchOrders (pagesOf [p1, p2, p3]) 3 = some (p1 ++ p2 ++ p3, 3) := by
  refine ⟨?_, ?_, ?_, ?_⟩
  · simp [fetchWooCommerceData, fetchLoop, pagesOf, h1, h2, h3, limitHit]
  · simp [h1, h2, h3]
  · intro pages fuel res k h
    exact fetchLoop_stops_at_empty pages fuel 1 [] res k h
  · simp [fetchOrders, fetchOrdersLoop, pagesOf, h1, h2, h3]

/-- Witness for C1 at a concrete page stream. -/
theorem claim_C1_pagination_witness :
    (List.replicate 100 (0 : ℕ)).length = 100 ∧
    (List.replicate 37 (0 : ℕ)).length = 37 ∧
    fetchWooCommerceData
      (pagesOf [List.replicate 100 (0 : ℕ), List.replicate 100 0, List.replicate 37 0])
      none 4 =
      some (List.replicate 100 (0 : ℕ) ++ List.replicate 100 0 ++ List.replicate 37 0, 4) :=
  ⟨by simp, by simp,
    (claim_C1_pagination (List.replicate 100 0) (List.replicate 100 0) (List.replicate 37 0)
      (by simp) (by simp) (by simp)).1⟩

set_option maxRecDepth 4096 in
/-- C1 counterexample: on the page stream `[100, 100, 37, 0]` the cited
extractor variant `fetchOrders` of `src/unnamed/part_001` issues only 3
page requests — it terminates on the merely short third page — whereas
the claim asserts the paginated extractor consumes exactly 4 pages and
never terminates on a short page. -/
theorem claim_C1_counterexample :
    fetchOrders
      (pagesOf [List.replicate 100 (0 : ℕ), List.replicate 100 0, List.replicate 37 0]) 3 =
      some (List.replicate 237 (0 : ℕ), 3) ∧ (3 : ℕ) ≠ 4 := by
  constructor
  · simp [fetchOrders, fetchOrdersLoop, pagesOf]
  · decide

/-! ## Claim C10 — record limits -/

theorem pagesCount_succ {α : Type} (pages : ℕ → List α) (j : ℕ) :
    pagesCount pages (j + 1) = pagesCount pages j + (pages (j + 1)).length := by
  rw [pagesCount, pagesCount, List.range_succ, List.map_append, List.sum_append]
  simp

theorem pagesCount_mono {α : Type} (pages : ℕ → List α) {j j2 : ℕ} (h : j ≤ j2) :
    pagesCount pages j ≤ pagesCount pages j2 := by
  induction j2 with
  | zero =>
    have hj : j = 0 := Nat.le_zero.mp h
    rw [hj]
  | succ j2 ih =>
    rcases Nat.lt_or_ge j (j2 + 1) with h2 | h2
    · calc pagesCount pages j ≤ pagesCount pages j2 := ih (by omega)
        _ ≤ pagesCount pages (j2 + 1) := by
            rw [pagesCount_succ]
            exact Nat.le_add_right _ _
    · have hj : j = j2 + 1 := by omega
      rw [hj]

/-- A positive-limited run exits at the first page at which the
cumulative record count reaches the limit: every strictly earlier page
count is below the limit, and the exit page is either empty (source
exhausted below the limit) or the page on which the limit was
reached. -/
theorem fetchLoop_first_hit {α : Type} (pages : ℕ → List α) (n : ℕ) (hn : 1 ≤ n) :
    ∀ (fuel page : ℕ) (acc res : List α) (k : ℕ),
      1 ≤ page →
      acc.length = pagesCount pages (page - 1) →
      acc.length < n →
      fetchLoop pages (some n) fuel page acc = some (res, k) →
      (∀ j, j < k → pagesCount pages j < n) ∧
      (pages k = [] ∨ n ≤ pagesCount pages k) := by
  intro fuel
  induction fuel with
  | zero => intro page acc res k _ _ _ h; exact absurd h (by simp [fetchLoop])
  | succ fuel ih =>
    intro page acc res k hpage hacc hlt h
    rw [fetchLoop_succ] at h
    have hsucc : pagesCount pages page = acc.length + (pages page).length := by
      have h1 : page - 1 + 1 = page := Nat.succ_pred_eq_of_pos hpage
      rw [← h1, pagesCount_succ, ← hacc]
    by_cases hlen : (pages page).length = 0
    · rw [if_pos hlen] at h
      have h1 := (Prod.mk.injEq _ _ _ _).mp ((Option.some.injEq _ _).mp h)
      rw [← h1.2]
      constructor
      · intro j hj
        have hj2 : j ≤ page - 1 := by omega
        calc pagesCount pages j ≤ pagesCount pages (page - 1) := pagesCount_mono pages hj2
          _ = acc.length := hacc.symm
          _ < n := hlt
      · left
        exact List.length_eq_zero.mp hlen
    · rw [if_neg hlen] at h
      by_cases hhit : limitHit (some n) (acc ++ pages page).length
      · rw [if_pos hhit] at h
        have h1 := (Prod.mk.injEq _ _ _ _).mp ((Option.some.injEq _ _).mp h)
        rw [← h1.2]
        have hge : n ≤ (acc ++ pages page).length := by
          simp only [limitHit, Bool.and_eq_true, decide_eq_true_eq] at hhit
          exact hhit.2
        constructor
        · intro j hj
          have hj2 : j ≤ page - 1 := by omega
          calc pagesCount pages j ≤ pagesCount pages (page - 1) := pagesCount_mono pages hj2
            _ = acc.length := hacc.symm
            _ < n := hlt
        · right
          rw [hsucc]
          calc n ≤ (acc ++ pages page).length := hge
            _ = acc.length + (pages page).length := List.length_append _ _
      · rw [if_neg hhit] at h
        have hlt2 : (acc ++ pages page).length < n := by
          simp only [limitHit, Bool.and_eq_true, decide_eq_true_eq] at hhit
          rcases Nat.lt_or_ge (acc ++ pages page).length n with h3 | h3
          · exact h3
          · exact absurd ⟨Nat.one_le_iff_ne_zero.mp hn, h3⟩ hhit
        refine ih (page + 1) (acc ++ pages page) res k (by omega) ?_ hlt2 h
        rw [List.length_append, Nat.add_sub_cancel]
        exact hsucc.symm

/-- C10 (amended).  For every positive record limit `n`, a limited
extraction that exits normally returns exactly the first
`min n total` records — the `take n` prefix of the unlimited extraction
on the same stream — and stops pagination as soon as `n` records have
been accumulated: it requests no more pages than the unlimited run,
every page before its last has a cumulative record count below `n`,
and its last page is either the one on which the count reached `n` or
the empty page of a source holding fewer than `n` records.  The
canonical order sync (`fetchWooCommerceData('/orders', 500)`) therefore
never returns more than 500 records.  (For the limit `0`, which is
falsy in JavaScript, the guard never fires; see the counterexample.) -/
theorem claim_C10_record_limit (pages : ℕ → List ℕ) (fuel n : ℕ)
    (res resU : List ℕ) (k kU : ℕ) (hn : 1 ≤ n)
    (h : fetchWooCommerceData pages (some n) fuel = some (res, k))
    (hU : fetchWooCommerceData pages none fuel = some (resU, kU)) :
    res = resU.take n ∧ res.length = min n resU.length ∧ k ≤ kU ∧
    (∀ (pages2 : ℕ → List ℕ) (fuel2 n2 : ℕ) (res2 : List ℕ) (k2 : ℕ), 1 ≤ n2 →
      fetchWooCommerceData pages2 (some n2) fuel2 = some (res2, k2) →
      (∀ j, j < k2 → pagesCount pages2 j < n2) ∧
      (pages2 k2 = [] ∨ n2 ≤ pagesCount pages2 k2)) ∧
    (∀ (pages2 : ℕ → List ℕ) (fuel2 : ℕ) (res2 : List ℕ) (k2 : ℕ),
      syncOrdersFetch pages2 fuel2 = some (res2, k2) → res2.length ≤ 500) := by
  have hmain := fetchLoop_limited_take pages n hn fuel 1 [] res resU k kU
    (by simpa using hn) h hU
  refine ⟨hmain.1, hmain.2.1, hmain.2.2, ?_, ?_⟩
  · intro pages2 fuel2 n2 res2 k2 hn2 h2
    exact fetchLoop_first_hit pages2 n2 hn2 fuel2 1 [] res2 k2 (le_refl 1) rfl
      (by simpa using hn2) h2
  · intro pages2 fuel2 res2 k2 h2
    exact fetchLoop_limited_len pages2 500 (by norm_num) fuel2 1 [] res2 k2 (by simp) h2

/-- Witness for C10 on a concrete two-page stream with limit 3: the
limited run stops on page 2 — the first page whose cumulative count
(4) reaches the limit, page 1 holding only 2 records — with the take-3
prefix of the unlimited run. -/
theorem claim_C10_record_limit_witness :
    fetchWooCommerceData (pagesOf [[0, 1], [2, 3]]) (some 3) 3 = some ([(0 : ℕ), 1, 2], 2) ∧
    fetchWooCommerceData (pagesOf [[0, 1], [2, 3]]) none 3 = some ([(0 : ℕ), 1, 2, 3], 3) ∧
    [(0 : ℕ), 1, 2] = [(0 : ℕ), 1, 2, 3].take 3 ∧ (2 : ℕ) ≤ 3 ∧
    pagesCount (pagesOf [[(0 : ℕ), 1], [2, 3]]) 1 < 3 ∧
    3 ≤ pagesCount (pagesOf [[(0 : ℕ), 1], [2, 3]]) 2 := by
  have h := claim_C10_record_limit (pagesOf [[0, 1], [2, 3]]) 3 3 [0, 1, 2] [0, 1, 2, 3] 2 3
    (by decide) (by decide) (by decide)
  have hfirst := h.2.2.2.1 (pagesOf [[0, 1], [2, 3]]) 3 3 [0, 1, 2] 2 (by decide) (by decide)
  exact ⟨by decide, by decide, h.1, h.2.2.1, hfirst.1 1 (by decide),
    hfirst.2.resolve_left (by decide)⟩

/-- C10 counterexample: with the non-null record limit `0` (falsy in
JavaScript, so `recordLimit && ...` never fires) the extractor fetches
everything — 1 record from a 1-record source — instead of the
`min 0 total = 0` records the claim requires. -/
theorem claim_C10_counterexample :
    fetchWooCommerceData (pagesOf [[(0 : ℕ)]]) (some 0) 2 = some ([(0 : ℕ)], 2) ∧
    ¬ ([(0 : ℕ)].length = min 0 [(0 : ℕ)].length) := by
  constructor
  · decide
  · decide

/-! ## Claim C2 — chunked loader failure semantics -/

theorem upsertLoop_succ {α : Type} (chunkSize : ℕ) (ok : ℕ → Bool)
    (fuel j : ℕ) (rem : List α) :
    upsertLoop chunkSize ok (fuel + 1) j rem =
      (if rem.isEmpty then some ([], 0, true)
       else if ok j then
         match upsertLoop chunkSize ok fuel (j + 1) (rem.drop chunkSize) with
         | none => none
         | some (c, a, s) => some (rem.take chunkSize ++ c, a + 1, s)
       else some ([], 1, false)) := rfl

/-- C2.  Loading 250 records with chunk size 100, where the store
accepts chunk 0 and rejects chunk 1: the loader stops with an error
after exactly two write attempts, exactly the first chunk's 100 records
are committed, and the third chunk is never attempted. -/
theorem claim_C2_chunk_failure {α : Type} (records : List α) (ok : ℕ → Bool)
    (hlen : records.length = 250) (h0 : ok 0 = true) (h1 : ok 1 = false) :
    upsertChunks 100 ok records = some (records.take 100, 2, false) := by
  have hne : records.isEmpty = false := by
    rw [List.isEmpty_eq_false]
    intro h
    rw [h] at hlen
    simp at hlen
  have hdne : (records.drop 100).isEmpty = false := by
    rw [List.isEmpty_eq_false]
    intro h
    have h2 := congrArg List.length h
    rw [List.length_drop, hlen] at h2
    simp at h2
  rw [upsertChunks, hne]
  simp only [Bool.false_eq_true, if_false]
  rw [hlen, upsertLoop_succ, hne]
  simp only [Bool.false_eq_true, if_false, h0, if_true]
  rw [show (250 : ℕ) = 249 + 1 from rfl, upsertLoop_succ, hdne]
  simp only [Bool.false_eq_true, if_false, h1]
  show some (records.take 100 ++ ([] : List α), 1 + 1, false) = some (records.take 100, 2, false)
  rw [List.append_nil]

/-- Witness for C2 at a concrete 250-record list. -/
theorem claim_C2_chunk_failure_witness :
    (List.replicate 250 (0 : ℕ)).length = 250 ∧
    (fun j => decide (j = 0)) 0 = true ∧
    (fun j => decide (j = 0)) 1 = false ∧
    upsertChunks 100 (fun j => decide (j = 0)) (List.replicate 250 (0 : ℕ)) =
      some ((List.replicate 250 (0 : ℕ)).take 100, 2, false) :=
  ⟨by rw [List.length_replicate], by decide, by decide,
    claim_C2_chunk_failure (List.replicate 250 0) (fun j => decide (j = 0))
      (by rw [List.length_replicate]) (by decide) (by decide)⟩

/-! ## Claim C3 — monetary parsing -/

/-- C3 (amended).  An absent `total` yields `0.0` in both formatters
(the `o.total || "0"` default catches `undefined`); but the unparsable
string `"abc"` is truthy, so `formatOrder` in `src/sync.js` produces
`NaN` for it — only `formatOrderForSupabase` of `src/unnamed/part_002`
(`parseFloat(o.total || '0') || 0`) defaults the failed parse to `0.0`.
Neither formatter can throw: both are total functions. -/
theorem claim_C3_total_parsing (o : Order) (now : String) :
    (o.total = none →
      (formatOrder o).total = JsNum.num 0 ∧
      (formatOrderForSupabase now o).total = JsNum.num 0) ∧
    (o.total = some "abc" →
      (formatOrder o).total = JsNum.nan ∧
      (formatOrderForSupabase now o).total = JsNum.num 0) := by
  constructor
  · intro h
    rw [formatOrder, formatOrderForSupabase]
    simp only [h]
    constructor
    · decide
    · decide
  · intro h
    rw [formatOrder, formatOrderForSupabase]
    simp only [h]
    constructor
    · decide
    · decide

/-- Witness for C3 at concrete orders with absent and `"abc"` totals. -/
theorem claim_C3_total_parsing_witness :
    (formatOrder { id := 1 }).total = JsNum.num 0 ∧
    (formatOrderForSupabase "2024-01-01T00:00:00.000Z" { id := 1 }).total = JsNum.num 0 ∧
    (formatOrder { id := 2, total := some "abc" }).total = JsNum.nan ∧
    (formatOrderForSupabase "2024-01-01T00:00:00.000Z" { id := 2, total := some "abc" }).total =
      JsNum.num 0 :=
  ⟨((claim_C3_total_parsing { id := 1 } "2024-01-01T00:00:00.000Z").1 rfl).1,
   ((claim_C3_total_parsing { id := 1 } "2024-01-01T00:00:00.000Z").1 rfl).2,
   ((claim_C3_total_parsing { id := 2, total := some "abc" } "2024-01-01T00:00:00.000Z").2 rfl).1,
   ((claim_C3_total_parsing { id := 2, total := some "abc" } "2024-01-01T00:00:00.000Z").2 rfl).2⟩

/-- C3 counterexample: for a source `total` of `"abc"` the
order-to-sale formatter of `src/sync.js` produces `NaN`, not the `0.0`
the claim requires. -/
theorem claim_C3_counterexample :
    (formatOrder { id := 1, total := some "abc" }).total = JsNum.nan ∧
    JsNum.nan ≠ JsNum.num 0 := by
  constructor
  · decide
  · decide

/-! ## Claim C5 — creation timestamps -/

/-- C5 (amended).  When the GMT creation field is present (and nonempty)
both formatters emit it with a `"Z"` suffix.  When it is absent,
`formatOrderForSupabase` of `src/unnamed/part_002` falls back to the
wall-clock time at formatting time (`new Date().toISOString()`), but
`formatOrder` of `src/sync.js` has no fallback: string-concatenating
`undefined` yields the malformed `"undefinedZ"`. -/
theorem claim_C5_created_at (o : Order) (now : String) :
    (∀ s, o.date_created_gmt = some s → s ≠ "" →
      (formatOrder o).created_at = s ++ "Z" ∧
      (formatOrderForSupabase now o).created_at = s ++ "Z") ∧
    (o.date_created_gmt = none →
      (formatOrder o).created_at = "undefinedZ" ∧
      (formatOrderForSupabase now o).created_at = now) := by
  constructor
  · intro s hs hne
    rw [formatOrder, formatOrderForSupabase]
    simp [hs, hne]
  · intro h
    rw [formatOrder, formatOrderForSupabase]
    simp [h]

/-- Witness for C5 at concrete orders with and without the GMT field. -/
theorem claim_C5_created_at_witness :
    (formatOrder { id := 1, date_created_gmt := some "2024-05-01T10:00:00" }).created_at =
      "2024-05-01T10:00:00" ++ "Z" ∧
    (formatOrderForSupabase "NOW" { id := 1, date_created_gmt := some "2024-05-01T10:00:00" }).created_at =
      "2024-05-01T10:00:00" ++ "Z" ∧
    (formatOrder { id := 2 }).created_at = "undefinedZ" ∧
    (formatOrderForSupabase "NOW" { id := 2 }).created_at = "NOW" :=
  ⟨((claim_C5_created_at { id := 1, date_created_gmt := some "2024-05-01T10:00:00" } "NOW").1
      "2024-05-01T10:00:00" rfl (by decide)).1,
   ((claim_C5_created_at { id := 1, date_created_gmt := some "2024-05-01T10:00:00" } "NOW").1
      "2024-05-01T10:00:00" rfl (by decide)).2,
   ((claim_C5_created_at { id := 2 } "NOW").2 rfl).1,
   ((claim_C5_created_at { id := 2 } "NOW").2 rfl).2⟩

/-- C5 counterexample: for an order without the GMT creation field,
`formatOrder` of `src/sync.js` emits the malformed string
`"undefinedZ"`, which the claim says the fallback never yields. -/
theorem claim_C5_counterexample :
    (formatOrder { id := 7 }).created_at = "undefinedZ" := by decide

/-! ## Claim C8 — average order value on the empty order set -/

/-- C8: the `averageOrderValue` derivation of `src/unnamed/part_000`
evaluated at the empty order set.  The code divides the revenue sum by
`orders.length` with no emptiness guard, so the result is the JavaScript
`0 / 0`, i.e. `NaN` — not the defined, documented value the claim
(and the spec's guard requirement) calls for. -/
theorem claim_C8_avg_unguarded : averageOrderValue ([] : List Order) = JsNum.nan := by
  decide

/-! ## Claim C7 — status allow-list filtering -/

/-- C7.  In `main` of `src/sync.js`, an order whose status is outside
the allow-list `{completed, processing, refunded}` — for instance
`"cancelled"` — contributes nothing to the `sales` upsert payload
(prepending it leaves the payload unchanged); every record in the
payload carries an allow-listed status; and every allow-listed raw
order is retained.  (This variant derives no aggregates, so exclusion
from every aggregate derivation holds vacuously.) -/
theorem claim_C7_status_filter (raw : List Order) (o : Order)
    (hc : o.status = "cancelled") :
    mainFormattedOrders (o :: raw) = mainFormattedOrders raw ∧
    (∀ r ∈ mainFormattedOrders raw, r.status ∈ allowedStatuses) ∧
    (∀ o2 ∈ raw, o2.status ∈ allowedStatuses →
      formatOrder o2 ∈ mainFormattedOrders raw) ∧
    "cancelled" ∉ allowedStatuses := by
  refine ⟨?_, ?_, ?_, ?_⟩
  · rw [mainFormattedOrders, mainFormattedOrders, List.filter_cons]
    have : decide (o.status ∈ allowedStatuses) = false := by
      rw [hc]; decide
    rw [this]
    simp
  · intro r hr
    rcases List.mem_map.mp hr with ⟨o2, ho2, hre⟩
    rcases List.mem_filter.mp ho2 with ⟨_, hst⟩
    rw [← hre]
    exact of_decide_eq_true hst
  · intro o2 h2 hst
    exact List.mem_map.mpr ⟨o2, List.mem_filter.mpr ⟨h2, decide_eq_true hst⟩, rfl⟩
  · decide

/-- Witness for C7: a cancelled order next to a completed one. -/
theorem claim_C7_status_filter_witness :
    ({ id := 2, status := "cancelled" } : Order).status = "cancelled" ∧
    mainFormattedOrders [{ id := 2, status := "cancelled" }, { id := 1, status := "completed" }] =
      mainFormattedOrders [{ id := 1, status := "completed" }] ∧
    (∀ r ∈ mainFormattedOrders [({ id := 1, status := "completed" } : Order)],
      r.status ∈ allowedStatuses) :=
  ⟨rfl,
   (claim_C7_status_filter [{ id := 1, status := "completed" }]
     { id := 2, status := "cancelled" } rfl).1,
   (claim_C7_status_filter [{ id := 1, status := "completed" }]
     { id := 2, status := "cancelled" } rfl).2.1⟩

/-! ## Claim C6 — unknown-customer sentinels -/

theorem trimChars_eq_nil {l : List Char}
    (h : ∀ c ∈ l, Char.isWhitespace c = true) : trimChars l = [] := by
  rw [trimChars]
  have h1 : l.dropWhile Char.isWhitespace = [] := by
    rw [List.dropWhile_eq_nil_iff]
    intro x hx
    exact h x hx
  rw [h1]
  rfl

theorem jsOrStr_empty_default (v : Option String) : jsOrStr v "" = v.getD "" := by
  cases v with
  | none => rfl
  | some s =>
    by_cases h : s = ""
    · simp [jsOrStr, h]
    · simp [jsOrStr, h]

/-- C6.  For an order with no billing e-mail and whitespace-only (or
absent) first and last names, both order formatters produce
`customer_name = "Client inconnu"`, and the top-customer aggregation of
`src/unnamed/part_000` groups the order under the fixed key
`"inconnu"`. -/
theorem claim_C6_unknown_customer (o : Order) (now : String)
    (he : o.billing.email = none)
    (hf : ∀ c ∈ (o.billing.first_name.getD "").toList, Char.isWhitespace c = true)
    (hl : ∀ c ∈ (o.billing.last_name.getD "").toList, Char.isWhitespace c = true) :
    (formatOrder o).customer_name = "Client inconnu" ∧
    (formatOrderForSupabase now o).customer_name = "Client inconnu" ∧
    custKey o = "inconnu" := by
  have hws : ∀ c ∈ (jsOrStr o.billing.first_name "" ++ " " ++
      jsOrStr o.billing.last_name "").toList, Char.isWhitespace c = true := by
    intro c hc
    rw [jsOrStr_empty_default, jsOrStr_empty_default] at hc
    have hdata : (o.billing.first_name.getD "" ++ " " ++ o.billing.last_name.getD "").toList =
        (o.billing.first_name.getD "").toList ++ ' ' :: (o.billing.last_name.getD "").toList := by
      rw [String.toList, String.data_append, String.data_append]
      rw [show (" " : String).data = [' '] from rfl, List.append_assoc]
      rfl
    rw [hdata] at hc
    rcases List.mem_append.mp hc with h1 | h1
    · exact hf c h1
    · rcases List.mem_cons.mp h1 with h2 | h2
      · rw [h2]; decide
      · exact hl c h2
  have htrim : jsTrim (jsOrStr o.billing.first_name "" ++ " " ++
      jsOrStr o.billing.last_name "") = "" := by
    rw [jsTrim, trimChars_eq_nil hws]
  refine ⟨?_, ?_, ?_⟩
  · rw [formatOrder]
    simp only [htrim]
    rfl
  · rw [formatOrderForSupabase]
    simp only [htrim]
    rfl
  · rw [custKey, he]
    rfl

/-- Witness for C6 at a concrete order with a whitespace first name,
empty last name and no e-mail. -/
theorem claim_C6_unknown_customer_witness :
    (formatOrder
      { id := 3, billing := { first_name := some " ", last_name := some "" } }).customer_name =
      "Client inconnu" ∧
    (formatOrderForSupabase "NOW"
      { id := 3, billing := { first_name := some " ", last_name := some "" } }).customer_name =
      "Client inconnu" ∧
    custKey { id := 3, billing := { first_name := some " ", last_name := some "" } } = "inconnu" :=
  claim_C6_unknown_customer
    { id := 3, billing := { first_name := some " ", last_name := some "" } } "NOW"
    rfl (by decide) (by decide)

/-! ## Claim C9 — top-5 customers -/

theorem jsLtZero_jsSub_num (p q : ℚ) :
    jsLtZero (jsSub (JsNum.num p) (JsNum.num q)) = decide (p < q) := by
  rw [jsSub_num]
  simp only [jsLtZero]
  exact decide_eq_decide.mpr (by constructor <;> intro h <;> linarith)

theorem custSb_num {a b : String × JsNum} {p q : ℚ}
    (ha : a.2 = JsNum.num p) (hb : b.2 = JsNum.num q) :
    custSb a b = decide (q < p) := by
  rw [custSb, ha, hb, jsLtZero_jsSub_num]

theorem alUpdate_keys {α β : Type} [DecidableEq α] (m : List (α × β)) (k : α) (v : β) :
    (alUpdate m k v).map Prod.fst = m.map Prod.fst := by
  induction m with
  | nil => rfl
  | cons p t ih =>
    by_cases hp : p.1 = k
    · simp [alUpdate, hp] at ih ⊢
      exact ih
    · simp [alUpdate, hp] at ih ⊢
      exact ih

theorem alLookup_none_iff {α β : Type} [DecidableEq α] (k : α) (m : List (α × β)) :
    alLookup k m = none ↔ k ∉ m.map Prod.fst := by
  induction m with
  | nil => simp [alLookup]
  | cons p t ih =>
    by_cases hp : p.1 = k
    · simp [alLookup, hp]
    · simp [alLookup, hp, ih]
      intro h
      exact fun he => hp he.symm

theorem custStep_keys_nodup (m : List (String × JsNum)) (o : Order)
    (h : (m.map Prod.fst).Nodup) : ((custStep m o).map Prod.fst).Nodup := by
  rw [custStep]
  cases hl : alLookup (custKey o) m with
  | some cur =>
      simp only []
      rw [alUpdate_keys]
      exact h
  | none =>
      simp only [List.map_append, List.map_cons, List.map_nil]
      rw [List.nodup_append]
      refine ⟨h, List.nodup_singleton _, ?_⟩
      intro a ha hb
      rw [List.mem_singleton] at hb
      subst hb
      exact (alLookup_none_iff _ _).mp hl ha

theorem customersAList_keys_nodup (orders : List Order) :
    ((customersAList orders).map Prod.fst).Nodup := by
  rw [customersAList]
  have haux : ∀ (os : List Order) (m : List (String × JsNum)),
      (m.map Prod.fst).Nodup → ((os.foldl custStep m).map Prod.fst).Nodup := by
    intro os
    induction os with
    | nil => intro m hm; exact hm
    | cons o t ih =>
      intro m hm
      rw [List.foldl_cons]
      exact ih (custStep m o) (custStep_keys_nodup m o hm)
  exact haux orders [] (by simp)

/-- C9.  For every order set whose per-customer grouping produces six
groups with summed totals `[50, 50, 30, 20, 10, 5]` (in any encounter
order), `getTopCustomers` returns exactly the five groups with totals
`[50, 50, 30, 20, 10]` in descending order of summed total, excludes
the sixth, and resolves the tie at `50` deterministically: the two
`50`-total customers appear in their grouping (first-encounter) order. -/
theorem claim_C9_top_customers (orders : List Order) (l : List (String × JsNum))
    (hal : customersAList orders = l)
    (hperm : (l.map Prod.snd).Perm
      [JsNum.num 50, JsNum.num 50, JsNum.num 30, JsNum.num 20, JsNum.num 10, JsNum.num 5]) :
    (getTopCustomers orders).map (fun c => c.total) =
      [JsNum.num 50, JsNum.num 50, JsNum.num 30, JsNum.num 20, JsNum.num 10] ∧
    (∀ p ∈ l, p.2 = JsNum.num 5 → ∀ c ∈ getTopCustomers orders, c.email ≠ p.1) ∧
    ((getTopCustomers orders).map (fun c => c.email)).take 2 =
      (l.filter (fun p => decide (p.2 = JsNum.num 50))).map Prod.fst := by
  have hgood : ∀ p ∈ l, ∃ q : ℚ, p.2 = JsNum.num q := by
    intro p hp
    have h2 : p.2 ∈ l.map Prod.snd := List.mem_map_of_mem _ hp
    have h3 := hperm.mem_iff.mp h2
    simp only [List.mem_cons, List.not_mem_nil, or_false] at h3
    rcases h3 with h | h | h | h | h | h <;> exact ⟨_, h⟩
  have Hasym : ∀ a b : String × JsNum,
      (∃ q : ℚ, a.2 = JsNum.num q) → (∃ q : ℚ, b.2 = JsNum.num q) →
      custSb a b = true → custSb b a = false := by
    rintro a b ⟨p, hp⟩ ⟨q, hq⟩ h
    rw [custSb_num hp hq] at h
    rw [custSb_num hq hp]
    simp only [decide_eq_true_eq] at h
    simp only [decide_eq_false_iff_not]
    linarith
  have Htrans : ∀ a b c : String × JsNum,
      (∃ q : ℚ, a.2 = JsNum.num q) → (∃ q : ℚ, b.2 = JsNum.num q) →
      (∃ q : ℚ, c.2 = JsNum.num q) →
      custSb b a = false → custSb c b = false → custSb c a = false := by
    rintro a b c ⟨p, hp⟩ ⟨q, hq⟩ ⟨r, hr⟩ h1 h2
    rw [custSb_num hq hp] at h1
    rw [custSb_num hr hq] at h2
    rw [custSb_num hr hp]
    simp only [decide_eq_false_iff_not] at h1 h2 ⊢
    linarith
  have hpair := jsSort_pairwise Hasym Htrans hgood
  have hsperm : (jsSort custSb l).Perm l := jsSort_perm custSb l
  have hsndperm : ((jsSort custSb l).map Prod.snd).Perm
      [JsNum.num 50, JsNum.num 50, JsNum.num 30, JsNum.num 20, JsNum.num 10, JsNum.num 5] :=
    (hsperm.map Prod.snd).trans hperm
  have hsorted : ((jsSort custSb l).map Prod.snd).Pairwise (fun x y => jsGeNum x y = true) := by
    rw [List.pairwise_map]
    refine List.Pairwise.imp_of_mem ?_ hpair
    intro a b ha hb hr
    rcases hgood a (mem_jsSort.mp ha) with ⟨p, hp⟩
    rcases hgood b (mem_jsSort.mp hb) with ⟨q, hq⟩
    rw [custSb_num hq hp] at hr
    rw [hp, hq]
    simp only [decide_eq_false_iff_not] at hr
    simp only [jsGeNum, decide_eq_true_eq]
    linarith
  have hMsorted :
      List.Pairwise (fun x y => jsGeNum x y = true)
        [JsNum.num 50, JsNum.num 50, JsNum.num 30, JsNum.num 20, JsNum.num 10, JsNum.num 5] := by
    decide
  have heq : (jsSort custSb l).map Prod.snd =
      [JsNum.num 50, JsNum.num 50, JsNum.num 30, JsNum.num 20, JsNum.num 10, JsNum.num 5] :=
    List.eq_of_perm_of_sorted hsndperm hsorted hMsorted
  have hkeys : (l.map Prod.fst).Nodup := by
    have h := customersAList_keys_nodup orders
    rw [hal] at h
    exact h
  have hskeys : ((jsSort custSb l).map Prod.fst).Nodup :=
    ((hsperm.map Prod.fst).nodup_iff).mpr hkeys
  obtain ⟨x1, t1, ht1, hx1, heq1⟩ := List.map_eq_cons_iff.mp heq
  obtain ⟨x2, t2, ht2, hx2, heq2⟩ := List.map_eq_cons_iff.mp heq1
  obtain ⟨x3, t3, ht3, hx3, heq3⟩ := List.map_eq_cons_iff.mp heq2
  obtain ⟨x4, t4, ht4, hx4, heq4⟩ := List.map_eq_cons_iff.mp heq3
  obtain ⟨x5, t5, ht5, hx5, heq5⟩ := List.map_eq_cons_iff.mp heq4
  obtain ⟨x6, t6, ht6, hx6, heq6⟩ := List.map_eq_cons_iff.mp heq5
  have ht6nil : t6 = [] := List.map_eq_nil_iff.mp heq6
  have hs : jsSort custSb l = [x1, x2, x3, x4, x5, x6] := by
    rw [ht1, ht2, ht3, ht4, ht5, ht6, ht6nil]
  have htop : getTopCustomers orders =
      [⟨x1.1, x1.2⟩, ⟨x2.1, x2.2⟩, ⟨x3.1, x3.2⟩, ⟨x4.1, x4.2⟩, ⟨x5.1, x5.2⟩] := by
    rw [getTopCustomers, hal, hs]
    rfl
  have hnodup6 : (([x1, x2, x3, x4, x5, x6] : List (String × JsNum)).map Prod.fst).Nodup := by
    rw [← hs]
    exact hskeys
  simp only [List.map_cons, List.map_nil, List.nodup_cons, List.mem_cons,
    List.not_mem_nil, or_false, List.nodup_nil, and_true] at hnodup6
  refine ⟨?_, ?_, ?_⟩
  · rw [htop]
    simp only [List.map_cons, List.map_nil]
    rw [hx1, hx2, hx3, hx4, hx5]
  · intro p hp hp5 c hc
    have hps : p ∈ jsSort custSb l := hsperm.mem_iff.mpr hp
    rw [hs] at hps
    simp only [List.mem_cons, List.not_mem_nil, or_false] at hps
    have hp6 : p = x6 := by
      rcases hps with h | h | h | h | h | h
      · exfalso; rw [h, hx1] at hp5
        have : (5 : ℚ) = 50 := by injection hp5.symm
        norm_num at this
      · exfalso; rw [h, hx2] at hp5
        have : (5 : ℚ) = 50 := by injection hp5.symm
        norm_num at this
      · exfalso; rw [h, hx3] at hp5
        have : (5 : ℚ) = 30 := by injection hp5.symm
        norm_num at this
      · exfalso; rw [h, hx4] at hp5
        have : (5 : ℚ) = 20 := by injection hp5.symm
        norm_num at this
      · exfalso; rw [h, hx5] at hp5
        have : (5 : ℚ) = 10 := by injection hp5.symm
        norm_num at this
      · exact h
    subst hp6
    rw [htop] at hc
    simp only [List.mem_cons, List.not_mem_nil, or_false] at hc
    rcases hc with h | h | h | h | h
    · rw [h]; intro he; exact hnodup6.1 (Or.inr (Or.inr (Or.inr (Or.inr he))))
    · rw [h]; intro he; exact hnodup6.2.1 (Or.inr (Or.inr (Or.inr he)))
    · rw [h]; intro he; exact hnodup6.2.2.1 (Or.inr (Or.inr he))
    · rw [h]; intro he; exact hnodup6.2.2.2.1 (Or.inr he)
    · rw [h]; intro he; exact hnodup6.2.2.2.2.1 he
  · have Htie : ∀ a b : String × JsNum,
        decide (a.2 = JsNum.num 50) = true → decide (b.2 = JsNum.num 50) = true →
        custSb a b = false := by
      intro a b ha hb
      simp only [decide_eq_true_eq] at ha hb
      rw [custSb_num ha hb]
      simp
    have hfil := jsSort_filter (p := fun p => decide (p.2 = JsNum.num 50)) Htie l
    rw [htop, ← hfil, hs]
    simp only [List.map_cons, List.map_nil, List.take_cons, List.filter_cons]
    rw [hx1, hx2, hx3, hx4, hx5, hx6]
    norm_num

/-- Witness for C9: six concrete customers with totals
`[50, 50, 30, 20, 10, 5]`. -/
theorem claim_C9_top_customers_witness :
    customersAList c9Orders = c9Groups ∧
    (getTopCustomers c9Orders).map (fun c => c.total) =
      [JsNum.num 50, JsNum.num 50, JsNum.num 30, JsNum.num 20, JsNum.num 10] ∧
    ((getTopCustomers c9Orders).map (fun c => c.email)).take 2 =
      (c9Groups.filter (fun p => decide (p.2 = JsNum.num 50))).map Prod.fst :=
  ⟨by decide,
   (claim_C9_top_customers c9Orders c9Groups (by decide) (List.Perm.refl _)).1,
   (claim_C9_top_customers c9Orders c9Groups (by decide) (List.Perm.refl _)).2.2⟩

/-! ## Claim C4 — top products by revenue -/

theorem prodSb_num {a b : ProdAgg} {p q : ℚ}
    (ha : a.total_sales = JsNum.num p) (hb : b.total_sales = JsNum.num q) :
    prodSb a b = decide (q < p) := by
  rw [prodSb, ha, hb, jsLtZero_jsSub_num]

theorem alLookup_mem {α β : Type} [DecidableEq α] {k : α} {v : β} :
    ∀ {m : List (α × β)}, alLookup k m = some v → (k, v) ∈ m := by
  intro m
  induction m with
  | nil => intro h; exact absurd h (by simp [alLookup])
  | cons p t ih =>
    intro h
    rw [alLookup] at h
    by_cases hp : p.1 = k
    · rw [if_pos hp] at h
      have hv : v = p.2 := ((Option.some.injEq _ _).mp h).symm
      have he : (k, v) = p := by
        rw [hv, ← hp]
      rw [he]
      exact List.mem_cons_self p t
    · rw [if_neg hp] at h
      exact List.mem_cons_of_mem _ (ih h)

theorem mem_keys_of_alLookup {α β : Type} [DecidableEq α] {k : α} {v : β}
    {m : List (α × β)} (h : alLookup k m = some v) : k ∈ m.map Prod.fst :=
  List.mem_map.mpr ⟨(k, v), alLookup_mem h, rfl⟩

theorem alLookup_of_mem_nodup {α β : Type} [DecidableEq α] {k : α} {v : β} :
    ∀ {m : List (α × β)}, (m.map Prod.fst).Nodup → (k, v) ∈ m → alLookup k m = some v := by
  intro m
  induction m with
  | nil => intro _ h; exact absurd h (List.not_mem_nil _)
  | cons p t ih =>
    intro hnd h
    rw [List.map_cons, List.nodup_cons] at hnd
    rcases List.mem_cons.mp h with h1 | h1
    · rw [alLookup, ← h1]
      simp
    · rw [alLookup]
      have hk : k ∈ t.map Prod.fst := List.mem_map.mpr ⟨(k, v), h1, rfl⟩
      have hne : p.1 ≠ k := fun he => hnd.1 (he ▸ hk)
      rw [if_neg hne]
      exact ih hnd.2 h1

theorem mem_alUpdate {α β : Type} [DecidableEq α] {m : List (α × β)} {k : α} {v : β}
    {p : α × β} (h : p ∈ alUpdate m k v) : p ∈ m ∨ p = (k, v) := by
  rcases List.mem_map.mp h with ⟨p0, hp0, he⟩
  by_cases hc : p0.1 = k
  · right
    rw [← he, if_pos hc]
  · left
    rw [← he, if_neg hc]
    exact hp0

/-- Every value stored in `productSales` carries the stringified form
of its own key as its `product_id`. -/
theorem prodStep_wf :
    ∀ (items : List LineItem) (m : List (ℕ × ProdAgg)),
      (∀ p ∈ m, p.2.product_id = toString p.1) →
      ∀ p ∈ items.foldl prodStep m, p.2.product_id = toString p.1 := by
  intro items
  induction items with
  | nil => intro m hm; exact hm
  | cons it t ih =>
    intro m hm
    rw [List.foldl_cons]
    refine ih (prodStep m it) ?_
    intro p hp
    rw [prodStep] at hp
    cases hl : alLookup it.product_id m with
    | some agg =>
      rw [hl] at hp
      rcases mem_alUpdate hp with h1 | h1
      · exact hm p h1
      · rw [h1]
        exact hm (it.product_id, agg) (alLookup_mem hl)
    | none =>
      rw [hl] at hp
      rcases List.mem_append.mp hp with h1 | h1
      · exact hm p h1
      · rw [List.mem_singleton.mp h1]
        rfl

/-- `productSales` accumulated over the nested `forEach` equals the
fold of `prodStep` over the flattened item sequence. -/
theorem productSales_eq_foldl (orders : List Order) :
    productSales orders = (allItems orders).foldl prodStep [] := by
  rw [productSales]
  have haux : ∀ (os : List Order) (m : List (ℕ × ProdAgg)),
      os.foldl (fun m o => o.line_items.foldl prodStep m) m =
        (allItems os).foldl prodStep m := by
    intro os
    induction os with
    | nil => intro m; rfl
    | cons o t ih =>
      intro m
      rw [List.foldl_cons, allItems, List.foldl_append]
      exact ih (o.line_items.foldl prodStep m)
  exact haux orders []

theorem prodStep_keys_nodup :
    ∀ (items : List LineItem) (m : List (ℕ × ProdAgg)),
      (m.map Prod.fst).Nodup → ((items.foldl prodStep m).map Prod.fst).Nodup := by
  intro items
  induction items with
  | nil => intro m hm; exact hm
  | cons it t ih =>
    intro m hm
    rw [List.foldl_cons]
    refine ih (prodStep m it) ?_
    rw [prodStep]
    cases hl : alLookup it.product_id m with
    | some agg =>
      simp only []
      rw [alUpdate_keys]
      exact hm
    | none =>
      simp only [List.map_append, List.map_cons, List.map_nil]
      rw [List.nodup_append]
      refine ⟨hm, List.nodup_singleton _, ?_⟩
      intro a ha hb
      rw [List.mem_singleton] at hb
      subst hb
      exact (alLookup_none_iff _ _).mp hl ha

theorem prodStep_keys_mem :
    ∀ (items : List LineItem) (m : List (ℕ × ProdAgg)) (k : ℕ),
      (k ∈ (items.foldl prodStep m).map Prod.fst ↔
        k ∈ m.map Prod.fst ∨ k ∈ items.map (fun it => it.product_id)) := by
  intro items
  induction items with
  | nil => intro m k; simp
  | cons it t ih =>
    intro m k
    rw [List.foldl_cons, ih]
    have hkeys : (prodStep m it).map Prod.fst = m.map Prod.fst ∨
        (prodStep m it).map Prod.fst = m.map Prod.fst ++ [it.product_id] := by
      rw [prodStep]
      cases hl : alLookup it.product_id m with
      | some agg =>
        left
        rw [alUpdate_keys]
      | none =>
        right
        simp
    rcases hkeys with h | h
    · rw [h]
      constructor
      · intro h1
        rcases h1 with h1 | h1
        · exact Or.inl h1
        · exact Or.inr (List.mem_cons_of_mem _ h1)
      · intro h1
        rcases h1 with h1 | h1
        · exact Or.inl h1
        · rcases List.mem_cons.mp h1 with h2 | h2
          · left
            rw [prodStep] at h
            cases hl : alLookup it.product_id m with
            | some agg =>
              rw [h2]
              exact mem_keys_of_alLookup hl
            | none =>
              rw [hl] at h
              simp at h
          · exact Or.inr h2
    · rw [h]
      constructor
      · intro h1
        rcases h1 with h1 | h1
        · rcases List.mem_append.mp h1 with h2 | h2
          · exact Or.inl h2
          · exact Or.inr (List.mem_cons.mpr (Or.inl (List.mem_singleton.mp h2)))
        · exact Or.inr (List.mem_cons_of_mem _ h1)
      · intro h1
        rcases h1 with h1 | h1
        · exact Or.inl (List.mem_append.mpr (Or.inl h1))
        · rcases List.mem_cons.mp h1 with h2 | h2
          · exact Or.inl (List.mem_append.mpr (Or.inr (List.mem_singleton.mpr h2)))
          · exact Or.inr h2

theorem alUpdate_cons {α β : Type} [DecidableEq α] (p : α × β) (t : List (α × β))
    (k : α) (v : β) :
    alUpdate (p :: t) k v = (if p.1 = k then (k, v) else p) :: alUpdate t k v := rfl

theorem alLookup_alUpdate_self {α β : Type} [DecidableEq α] (k : α) (v : β) :
    ∀ (m : List (α × β)),
      alLookup k (alUpdate m k v) =
        match alLookup k m with
        | some _ => some v
        | none => none := by
  intro m
  induction m with
  | nil => rfl
  | cons p t ih =>
    rw [alUpdate_cons]
    by_cases hp : p.1 = k
    · rw [if_pos hp, alLookup, alLookup, if_pos hp]
      simp
    · rw [if_neg hp, alLookup, alLookup, if_neg hp, if_neg hp, ih]

theorem alLookup_alUpdate_ne {α β : Type} [DecidableEq α] {k k0 : α} (hne : k0 ≠ k) (v : β) :
    ∀ (m : List (α × β)), alLookup k (alUpdate m k0 v) = alLookup k m := by
  intro m
  induction m with
  | nil => rfl
  | cons p t ih =>
    rw [alUpdate_cons]
    by_cases hp : p.1 = k0
    · have hk : ¬ (p.1 = k) := by rw [hp]; exact hne
      rw [if_pos hp, alLookup, alLookup, if_neg hne, if_neg hk, ih]
    · rw [if_neg hp, alLookup, alLookup]
      by_cases hk : p.1 = k
      · rw [if_pos hk, if_pos hk]
      · rw [if_neg hk, if_neg hk, ih]

theorem alLookup_append {α β : Type} [DecidableEq α] (k : α) :
    ∀ (m m2 : List (α × β)),
      alLookup k (m ++ m2) =
        match alLookup k m with
        | some v => some v
        | none => alLookup k m2 := by
  intro m m2
  induction m with
  | nil => rfl
  | cons p t ih =>
    rw [List.cons_append, alLookup, alLookup]
    by_cases hp : p.1 = k
    · rw [if_pos hp, if_pos hp]
    · rw [if_neg hp, if_neg hp, ih]

/-- The accumulated `total_sales` of key `k` after folding a batch of
line items: every matching item's parsed `total` is `+=`-ed onto the
entry (which starts at `0` when the key is first seen). -/
theorem prodStep_total :
    ∀ (items : List LineItem) (m : List (ℕ × ProdAgg)) (k : ℕ) (agg : ProdAgg),
      alLookup k (items.foldl prodStep m) = some agg →
      (match alLookup k m with
       | some agg0 => agg.total_sales =
           (items.filter (fun it => decide (it.product_id = k))).foldl
             (fun s it => jsAdd s (jsParseFloatOpt it.total)) agg0.total_sales
       | none => agg.total_sales =
           (items.filter (fun it => decide (it.product_id = k))).foldl
             (fun s it => jsAdd s (jsParseFloatOpt it.total)) (JsNum.num 0)) := by
  intro items
  induction items with
  | nil =>
    intro m k agg h
    rw [List.foldl_nil] at h
    rw [h]
    simp
  | cons it t ih =>
    intro m k agg h
    rw [List.foldl_cons] at h
    have hstep := ih (prodStep m it) k agg h
    by_cases hk : it.product_id = k
    · have hfil : (it :: t).filter (fun it => decide (it.product_id = k)) =
          it :: t.filter (fun it => decide (it.product_id = k)) := by
        rw [List.filter_cons, if_pos (by simp [hk])]
      rw [hfil]
      rw [prodStep] at hstep
      cases hl : alLookup it.product_id m with
      | some agg0 =>
        rw [hl] at hstep
        have hl2 : alLookup k m = some agg0 := by rw [← hk]; exact hl
        rw [hl2]
        have hup := alLookup_alUpdate_self it.product_id
          { agg0 with total_sales := jsAdd agg0.total_sales (jsParseFloatOpt it.total) } m
        rw [hl] at hup
        have hup2 : alLookup k (alUpdate m it.product_id
            { agg0 with total_sales := jsAdd agg0.total_sales (jsParseFloatOpt it.total) }) =
            some { agg0 with total_sales := jsAdd agg0.total_sales (jsParseFloatOpt it.total) } := by
          rw [← hk]
          exact hup
        rw [hup2] at hstep
        rw [List.foldl_cons]
        exact hstep
      | none =>
        rw [hl] at hstep
        have hl2 : alLookup k m = none := by rw [← hk]; exact hl
        rw [hl2]
        have happ := alLookup_append k m
          [(it.product_id,
            { prodInit it with total_sales := jsAdd (JsNum.num 0) (jsParseFloatOpt it.total) })]
        rw [hl2] at happ
        have happ2 : alLookup k
            (m ++ [(it.product_id,
              { prodInit it with total_sales := jsAdd (JsNum.num 0) (jsParseFloatOpt it.total) })]) =
            some { prodInit it with total_sales := jsAdd (JsNum.num 0) (jsParseFloatOpt it.total) } := by
          rw [happ, alLookup, if_pos hk]
        rw [happ2] at hstep
        rw [List.foldl_cons]
        exact hstep
    · have hfil : (it :: t).filter (fun it => decide (it.product_id = k)) =
          t.filter (fun it => decide (it.product_id = k)) := by
        rw [List.filter_cons, if_neg (by simp [hk])]
      rw [hfil]
      rw [prodStep] at hstep
      cases hl : alLookup it.product_id m with
      | some agg0 =>
        rw [hl] at hstep
        have hup : alLookup k (alUpdate m it.product_id
            { agg0 with total_sales := jsAdd agg0.total_sales (jsParseFloatOpt it.total) }) =
            alLookup k m := alLookup_alUpdate_ne hk _ m
        rw [hup] at hstep
        exact hstep
      | none =>
        rw [hl] at hstep
        have happ := alLookup_append k m
          [(it.product_id,
            { prodInit it with total_sales := jsAdd (JsNum.num 0) (jsParseFloatOpt it.total) })]
        have happ2 : alLookup k
            (m ++ [(it.product_id,
              { prodInit it with total_sales := jsAdd (JsNum.num 0) (jsParseFloatOpt it.total) })]) =
            alLookup k m := by
          rw [happ]
          cases hm : alLookup k m with
          | some v => rfl
          | none => rw [alLookup, if_neg hk]; rfl
        rw [happ2] at hstep
        exact hstep

/-- Folding `jsAdd` over finitely many finite parses is the rational
sum. -/
theorem foldl_jsAdd_num :
    ∀ (its : List LineItem) (a : ℚ),
      (∀ it ∈ its, ∃ q : ℚ, jsParseFloatOpt it.total = JsNum.num q) →
      its.foldl (fun s it => jsAdd s (jsParseFloatOpt it.total)) (JsNum.num a) =
        JsNum.num (a + (its.map (fun it =>
          match jsParseFloatOpt it.total with
          | JsNum.num q => q
          | _ => 0)).sum) := by
  intro its
  induction its with
  | nil => intro a _; simp
  | cons it t ih =>
    intro a h
    rcases h it (by simp) with ⟨q, hq⟩
    rw [List.foldl_cons, hq, jsAdd_num, ih (a + q) (fun x hx => h x (by simp [hx]))]
    rw [List.map_cons, List.sum_cons, hq]
    rw [add_assoc]

/-- C4 (amended).  `topProducts` of `src/unnamed/part_001` groups line
items by product identifier and accumulates a revenue sum — the parsed
`item.total` added into the `total_sales` field; no unit count is
accumulated anywhere.  When every line-item `total` parses to a finite
number, the result is the values of that grouping sorted in descending
order of the revenue sum, cut to the first 50: the returned list is a
sorted-descending initial segment dominating the dropped remainder, has
exactly `min 50 (number of distinct product ids)` entries, and each
entry carries the stringified product id and the summed revenue of that
product's line items. -/
theorem claim_C4_top_products (orders : List Order)
    (hnum : ∀ it ∈ allItems orders, ∃ q : ℚ, jsParseFloatOpt it.total = JsNum.num q) :
    ∃ rest : List ProdAgg,
      (objectValuesNum (productSales orders)).Perm (topProducts orders ++ rest) ∧
      (topProducts orders ++ rest).Pairwise (fun a b => prodSb b a = false) ∧
      (topProducts orders).length =
        min 50 ((allItems orders).map (fun it => it.product_id)).toFinset.card ∧
      (∀ p ∈ topProducts orders, ∃ k : ℕ,
        p.product_id = toString k ∧
        p.total_sales = JsNum.num (itemsRevenue k (allItems orders))) := by
  have hm : productSales orders = (allItems orders).foldl prodStep [] :=
    productSales_eq_foldl orders
  have hkeysnodup : ((productSales orders).map Prod.fst).Nodup := by
    rw [hm]
    exact prodStep_keys_nodup (allItems orders) [] (by simp)
  have hwf : ∀ p ∈ productSales orders, p.2.product_id = toString p.1 := by
    rw [hm]
    exact prodStep_wf (allItems orders) [] (by simp)
  have hentry : ∀ (k : ℕ) (v : ProdAgg), (k, v) ∈ productSales orders →
      v.product_id = toString k ∧
      v.total_sales = JsNum.num (itemsRevenue k (allItems orders)) := by
    intro k v hmem
    refine ⟨hwf (k, v) hmem, ?_⟩
    have hlk : alLookup k ((allItems orders).foldl prodStep []) = some v := by
      rw [← hm]
      exact alLookup_of_mem_nodup hkeysnodup hmem
    have htot := prodStep_total (allItems orders) [] k v hlk
    have htot2 : v.total_sales =
        ((allItems orders).filter (fun it => decide (it.product_id = k))).foldl
          (fun s it => jsAdd s (jsParseFloatOpt it.total)) (JsNum.num 0) := by
      simpa [alLookup] using htot
    rw [htot2, foldl_jsAdd_num _ 0
      (fun it hit => hnum it (List.mem_of_mem_filter hit)), zero_add]
    rfl
  have hvalpair : ∀ v ∈ objectValuesNum (productSales orders),
      ∃ k : ℕ, (k, v) ∈ productSales orders := by
    intro v hv
    rw [objectValuesNum] at hv
    rcases List.mem_map.mp hv with ⟨pk, hpk, he⟩
    refine ⟨pk.1, ?_⟩
    have h2 : pk ∈ productSales orders := mem_jsSort.mp hpk
    rw [← he]
    exact h2
  have hgoodvals : ∀ v ∈ objectValuesNum (productSales orders),
      ∃ q : ℚ, v.total_sales = JsNum.num q := by
    intro v hv
    rcases hvalpair v hv with ⟨k, hkv⟩
    exact ⟨itemsRevenue k (allItems orders), (hentry k v hkv).2⟩
  have Hasym : ∀ a b : ProdAgg,
      (∃ q : ℚ, a.total_sales = JsNum.num q) → (∃ q : ℚ, b.total_sales = JsNum.num q) →
      prodSb a b = true → prodSb b a = false := by
    rintro a b ⟨p, hp⟩ ⟨q, hq⟩ h
    rw [prodSb_num hp hq] at h
    rw [prodSb_num hq hp]
    simp only [decide_eq_true_eq] at h
    simp only [decide_eq_false_iff_not]
    linarith
  have Htrans : ∀ a b c : ProdAgg,
      (∃ q : ℚ, a.total_sales = JsNum.num q) → (∃ q : ℚ, b.total_sales = JsNum.num q) →
      (∃ q : ℚ, c.total_sales = JsNum.num q) →
      prodSb b a = false → prodSb c b = false → prodSb c a = false := by
    rintro a b c ⟨p, hp⟩ ⟨q, hq⟩ ⟨r, hr⟩ h1 h2
    rw [prodSb_num hq hp] at h1
    rw [prodSb_num hr hq] at h2
    rw [prodSb_num hr hp]
    simp only [decide_eq_false_iff_not] at h1 h2 ⊢
    linarith
  have hsorted := jsSort_pairwise Hasym Htrans hgoodvals
  refine ⟨(jsSort prodSb (objectValuesNum (productSales orders))).drop 50, ?_, ?_, ?_, ?_⟩
  · rw [topProducts, List.take_append_drop]
    exact (jsSort_perm prodSb _).symm
  · rw [topProducts, List.take_append_drop]
    exact hsorted
  · rw [topProducts, List.length_take]
    congr 1
    rw [(jsSort_perm prodSb _).length_eq, objectValuesNum,
      List.length_map, (jsSort_perm _ _).length_eq]
    have hlenkeys : (productSales orders).length = ((productSales orders).map Prod.fst).length :=
      (List.length_map _ _).symm
    rw [hlenkeys, ← List.toFinset_card_of_nodup hkeysnodup]
    congr 1
    apply Finset.ext
    intro k
    rw [List.mem_toFinset, List.mem_toFinset, hm, prodStep_keys_mem]
    simp
  · intro p hp
    rw [topProducts] at hp
    have hp2 : p ∈ jsSort prodSb (objectValuesNum (productSales orders)) :=
      List.mem_of_mem_take hp
    have hp3 : p ∈ objectValuesNum (productSales orders) := mem_jsSort.mp hp2
    rcases hvalpair p hp3 with ⟨k, hkv⟩
    exact ⟨k, hentry k p hkv⟩

/-- Witness for C4 at the concrete `c4Orders`. -/
theorem claim_C4_top_products_witness :
    (∀ it ∈ allItems c4Orders, ∃ q : ℚ, jsParseFloatOpt it.total = JsNum.num q) ∧
    (∃ rest : List ProdAgg,
      (objectValuesNum (productSales c4Orders)).Perm (topProducts c4Orders ++ rest) ∧
      (topProducts c4Orders ++ rest).Pairwise (fun a b => prodSb b a = false) ∧
      (topProducts c4Orders).length =
        min 50 ((allItems c4Orders).map (fun it => it.product_id)).toFinset.card ∧
      (∀ p ∈ topProducts c4Orders, ∃ k : ℕ,
        p.product_id = toString k ∧
        p.total_sales = JsNum.num (itemsRevenue k (allItems c4Orders)))) := by
  have hnum : ∀ it ∈ allItems c4Orders, ∃ q : ℚ, jsParseFloatOpt it.total = JsNum.num q := by
    intro it hit
    simp only [allItems, c4Orders, List.append_nil, List.mem_cons,
      List.not_mem_nil, or_false] at hit
    rcases hit with h | h
    · exact ⟨5, by rw [h]; decide⟩
    · exact ⟨100, by rw [h]; decide⟩
  exact ⟨hnum, claim_C4_top_products c4Orders hnum⟩

/-- C4 counterexample: on `c4Orders` the derivation returns product 2
(1 unit sold, revenue 100) ahead of product 1 (10 units sold, revenue
5) — it sorts by the accumulated revenue sum, not descending by unit
count as the claim states; indeed no unit count is accumulated at
all. -/
theorem claim_C4_counterexample :
    (topProducts c4Orders).map (fun p => p.product_id) = ["2", "1"] ∧
    specUnitCount 1 c4Orders = 10 ∧
    specUnitCount 2 c4Orders = 1 ∧
    ¬ ((10 : ℕ) ≤ 1) := by
  refine ⟨?_, ?_, ?_, ?_⟩
  · decide
  · decide
  · decide
  · decide
